import Mathlib

/-!
Shallow embedding of `hardware_interface::ResourceManager`
(`src/hardware_interface/include/hardware_interface/resource_manager.h`).

The registry is a `std::map<std::string, ResourceHandle>`; we model it as an
association list `List (String × H)` whose iteration order mirrors the map's:
`std::map` keeps its entries in strictly increasing key order, so insertion of
a fresh key (`resource_map_.insert(std::make_pair(...))`) is modelled by
ordered insertion, and in-place value assignment (`it->second = handle`) by
replacing the value at the first matching key.  The handle type is an
arbitrary type `H` together with a `getName : H → String` function, exactly
the requirement the template imposes.  The external collaborator
`HardwareInterface::claim` is modelled as an arbitrary fallible function
`claim : String → Except ε Unit`; the names passed to it are recorded in a
trace so that claim-policy behaviour is observable.
-/

namespace hardware_interface

/-- The two `ClaimPolicy` strategies (`ClaimResources` / `DontClaimResources`). -/
inductive ClaimPolicy where
  | ClaimResources : ClaimPolicy
  | DontClaimResources : ClaimPolicy
deriving DecidableEq, Repr

/-- Errors observable from `getHandle`: the `HardwareInterfaceException`
thrown when a resource is missing (carrying the requested name and the
demangled type identity of the concrete registry, as in the thrown message),
or an error raised by the collaborator's `claim` and propagating through. -/
inductive HWError (ε : Type) where
  | resourceNotFound (requestedName : String) (typeId : String) : HWError ε
  | collaborator (e : ε) : HWError ε
deriving DecidableEq, Repr

/-- `resource_map_.find(name)`: the value stored at the first entry whose key
equals `name` (in a well-formed map there is at most one). -/
def findEntry {H : Type} : List (String × H) → String → Option H
  | [], _ => none
  | (k, v) :: rest, name => if k = name then some v else findEntry rest name

/-- `std::map` insertion of a fresh key: the new entry is placed at its sorted
position, before the first entry whose key is not smaller. -/
def mapInsert {H : Type} (name : String) (h : H) : List (String × H) → List (String × H)
  | [] => [(name, h)]
  | (k, v) :: rest =>
      if k < name then (k, v) :: mapInsert name h rest
      else (name, h) :: (k, v) :: rest

/-- `it->second = handle`: replace the value at the first entry whose key
equals `name`, keeping the key and every other entry. -/
def mapAssign {H : Type} (name : String) (h : H) : List (String × H) → List (String × H)
  | [] => []
  | (k, v) :: rest =>
      if k = name then (k, h) :: rest else (k, v) :: mapAssign name h rest

/-- `ResourceManager::registerHandle`: look the name up; if absent, insert the
pair, otherwise emit a `ROS_WARN_STREAM` diagnostic and overwrite the stored
value.  Returns the new map together with whether the replacement warning was
emitted.  There is no failure outcome. -/
def registerHandle {H : Type} (getName : H → String) (handle : H)
    (m : List (String × H)) : List (String × H) × Bool :=
  match findEntry m (getName handle) with
  | none => (mapInsert (getName handle) handle m, false)
  | some _ => (mapAssign (getName handle) handle m, true)

/-- `ResourceManager::getNames`: the keys of `resource_map_` in iteration
order. -/
def getNames {H : Type} (m : List (String × H)) : List String :=
  m.map Prod.fst

/-- `ClaimPolicy::claim(this, name)`: `ClaimResources::claim` forwards to the
collaborator `hw->claim(name)`; `DontClaimResources::claim` is a no-op.
Returns the trace of names passed to the collaborator and the outcome. -/
def policyClaim {ε : Type} (policy : ClaimPolicy) (claim : String → Except ε Unit)
    (name : String) : List String × Except ε Unit :=
  match policy with
  | .ClaimResources => ([name], claim name)
  | .DontClaimResources => ([], Except.ok ())

/-- Everything observable from one `getHandle` call: the registry state after
the call, the trace of names passed to the collaborator's `claim`, and either
the returned handle copy or the exception that escaped. -/
structure GetHandleResult (H ε : Type) where
  state : List (String × H)
  claimCalls : List String
  result : Except (HWError ε) H

/-- `ResourceManager::getHandle`: find the name; if absent, throw
`HardwareInterfaceException` naming the resource and the registry type; else
run the claim policy (any collaborator error escapes) and return a copy of the
stored handle.  The map itself is only read. -/
def getHandle {H ε : Type} (policy : ClaimPolicy) (claim : String → Except ε Unit)
    (typeId : String) (m : List (String × H)) (name : String) :
    GetHandleResult H ε :=
  match findEntry m name with
  | none => ⟨m, [], Except.error (HWError.resourceNotFound name typeId)⟩
  | some h =>
      match policyClaim policy claim name with
      | (trace, Except.ok _) => ⟨m, trace, Except.ok h⟩
      | (trace, Except.error e) => ⟨m, trace, Except.error (HWError.collaborator e)⟩

/-- Registry states reachable through the public interface: the freshly
constructed registry is empty, and `registerHandle` is the only operation
that changes the state. -/
inductive Reachable {H : Type} (getName : H → String) : List (String × H) → Prop where
  | empty : Reachable getName []
  | register (m : List (String × H)) (h : H) :
      Reachable getName m → Reachable getName (registerHandle getName h m).1

/-- Well-formedness of the model of `std::map`: keys strictly increase along
the entry list. -/
def WFKeys {H : Type} (m : List (String × H)) : Prop :=
  m.Pairwise (fun a b => a.1 < b.1)

/-- A registry populated only through `registerHandle`, starting empty: the
lifecycle the spec describes (populate during initialization). -/
def buildFrom {H : Type} (getName : H → String) (hs : List H) : List (String × H) :=
  hs.foldl (fun m h => (registerHandle getName h m).1) []

/-!  Lemmas about the map model. -/

theorem mem_mapInsert {H : Type} {name : String} {h : H} {m : List (String × H)}
    {p : String × H} : p ∈ mapInsert name h m ↔ p = (name, h) ∨ p ∈ m := by
  induction m with
  | nil => simp [mapInsert]
  | cons q rest ih =>
      obtain ⟨a, b⟩ := q
      by_cases hlt : a < name
      · rw [mapInsert, if_pos hlt]
        simp only [List.mem_cons, ih]
        tauto
      · rw [mapInsert, if_neg hlt]
        simp only [List.mem_cons]

theorem findEntry_mapInsert_self {H : Type} {m : List (String × H)} {name : String}
    {h : H} (hnone : findEntry m name = none) :
    findEntry (mapInsert name h m) name = some h := by
  induction m with
  | nil => simp [mapInsert, findEntry]
  | cons p rest ih =>
      obtain ⟨k, v⟩ := p
      by_cases hk : k = name
      · simp [findEntry, hk] at hnone
      · rw [findEntry, if_neg hk] at hnone
        by_cases hlt : k < name
        · rw [mapInsert, if_pos hlt, findEntry, if_neg hk, ih hnone]
        · rw [mapInsert, if_neg hlt, findEntry, if_pos rfl]

theorem findEntry_mapInsert_ne {H : Type} {m : List (String × H)} {name k : String}
    {h : H} (hne : k ≠ name) :
    findEntry (mapInsert name h m) k = findEntry m k := by
  induction m with
  | nil => simp [mapInsert, findEntry, Ne.symm hne]
  | cons p rest ih =>
      obtain ⟨a, b⟩ := p
      by_cases hlt : a < name
      · rw [mapInsert, if_pos hlt, findEntry, findEntry, ih]
      · rw [mapInsert, if_neg hlt, findEntry, if_neg (Ne.symm hne)]

theorem findEntry_mapAssign_self {H : Type} {m : List (String × H)} {name : String}
    {h : H} :
    findEntry (mapAssign name h m) name = (findEntry m name).map (fun _ => h) := by
  induction m with
  | nil => simp [mapAssign, findEntry]
  | cons p rest ih =>
      obtain ⟨a, b⟩ := p
      by_cases hak : a = name
      · simp [mapAssign, hak, findEntry]
      · simp [mapAssign, hak, findEntry, ih]

theorem findEntry_mapAssign_ne {H : Type} {m : List (String × H)} {name k : String}
    {h : H} (hne : k ≠ name) :
    findEntry (mapAssign name h m) k = findEntry m k := by
  induction m with
  | nil => rfl
  | cons p rest ih =>
      obtain ⟨a, b⟩ := p
      by_cases hak : a = name
      · subst hak
        rw [mapAssign, if_pos rfl, findEntry, if_neg (Ne.symm hne), findEntry,
          if_neg (Ne.symm hne)]
      · rw [mapAssign, if_neg hak, findEntry, findEntry, ih]

theorem findEntry_registerHandle_self {H : Type} (getName : H → String) (h : H)
    (m : List (String × H)) :
    findEntry (registerHandle getName h m).1 (getName h) = some h := by
  unfold registerHandle
  cases hfind : findEntry m (getName h) with
  | none => simpa using findEntry_mapInsert_self hfind
  | some v => simp [findEntry_mapAssign_self, hfind]

theorem findEntry_registerHandle_ne {H : Type} (getName : H → String) (h : H)
    (m : List (String × H)) {k : String} (hne : k ≠ getName h) :
    findEntry (registerHandle getName h m).1 k = findEntry m k := by
  unfold registerHandle
  cases hfind : findEntry m (getName h) with
  | none => simpa using findEntry_mapInsert_ne hne
  | some v => simpa using findEntry_mapAssign_ne hne

theorem getNames_mapAssign {H : Type} (name : String) (h : H)
    (m : List (String × H)) : getNames (mapAssign name h m) = getNames m := by
  induction m with
  | nil => simp [mapAssign]
  | cons p rest ih =>
      obtain ⟨a, b⟩ := p
      by_cases hak : a = name
      · simp [mapAssign, hak, getNames]
      · simp only [mapAssign, hak, if_neg hak, getNames, List.map_cons]
        simpa [getNames] using ih

theorem getNames_mapInsert_perm {H : Type} (name : String) (h : H)
    (m : List (String × H)) :
    (getNames (mapInsert name h m)).Perm (name :: getNames m) := by
  induction m with
  | nil => exact List.Perm.refl _
  | cons p rest ih =>
      obtain ⟨a, b⟩ := p
      by_cases hlt : a < name
      · rw [mapInsert, if_pos hlt]
        show (a :: getNames (mapInsert name h rest)).Perm (name :: a :: getNames rest)
        exact (ih.cons a).trans (List.Perm.swap name a (getNames rest))
      · rw [mapInsert, if_neg hlt]
        exact List.Perm.refl _

theorem mem_getNames_iff_isSome {H : Type} {m : List (String × H)} {k : String} :
    k ∈ getNames m ↔ (findEntry m k).isSome := by
  induction m with
  | nil => simp [getNames, findEntry]
  | cons p rest ih =>
      obtain ⟨a, b⟩ := p
      by_cases hak : a = k
      · simp [getNames, findEntry, hak]
      · simp only [getNames, List.map_cons, List.mem_cons, findEntry, if_neg hak]
        constructor
        · rintro (hk | hk)
          · exact absurd hk.symm hak
          · exact ih.mp (by simpa [getNames] using hk)
        · intro hk
          exact Or.inr (by simpa [getNames] using ih.mpr hk)

theorem wfKeys_iff {H : Type} {m : List (String × H)} :
    WFKeys m ↔ (getNames m).Pairwise (· < ·) :=
  List.pairwise_map.symm

theorem wfKeys_mapAssign {H : Type} {name : String} {h : H} {m : List (String × H)}
    (hwf : WFKeys m) : WFKeys (mapAssign name h m) := by
  rw [wfKeys_iff, getNames_mapAssign]
  exact wfKeys_iff.mp hwf

theorem wfKeys_mapInsert {H : Type} {name : String} {h : H} {m : List (String × H)}
    (hwf : WFKeys m) (hnone : findEntry m name = none) :
    WFKeys (mapInsert name h m) := by
  induction m with
  | nil => simp [mapInsert, WFKeys]
  | cons p rest ih =>
      obtain ⟨a, b⟩ := p
      rw [WFKeys, List.pairwise_cons] at hwf
      obtain ⟨ha, hrest⟩ := hwf
      rw [findEntry] at hnone
      by_cases hab : a = name
      · rw [if_pos hab] at hnone
        exact absurd hnone (by simp)
      · rw [if_neg hab] at hnone
        by_cases hlt : a < name
        · rw [mapInsert, if_pos hlt, WFKeys, List.pairwise_cons]
          refine ⟨fun p hp => ?_, ih hrest hnone⟩
          rcases mem_mapInsert.mp hp with hp | hp
          · rw [hp]; exact hlt
          · exact ha p hp
        · rw [mapInsert, if_neg hlt, WFKeys, List.pairwise_cons]
          refine ⟨fun p hp => ?_, ?_⟩
          · have hname_le : name ≤ a := not_lt.mp hlt
            have hname_lt : name < a := hname_le.lt_of_ne (Ne.symm hab)
            rcases List.mem_cons.mp hp with hp | hp
            · rw [hp]; exact hname_lt
            · exact lt_trans hname_lt (ha p hp)
          · rw [WFKeys, List.pairwise_cons] at *
            exact ⟨ha, hrest⟩

theorem wfKeys_registerHandle {H : Type} (getName : H → String) (h : H)
    {m : List (String × H)} (hwf : WFKeys m) :
    WFKeys (registerHandle getName h m).1 := by
  unfold registerHandle
  cases hfind : findEntry m (getName h) with
  | none => exact wfKeys_mapInsert hwf hfind
  | some v => exact wfKeys_mapAssign hwf

theorem reachable_wfKeys {H : Type} {getName : H → String} {m : List (String × H)}
    (hr : Reachable getName m) : WFKeys m := by
  induction hr with
  | empty => exact List.Pairwise.nil
  | register m h _ ih => exact wfKeys_registerHandle getName h ih

theorem nodup_getNames {H : Type} {m : List (String × H)} (hwf : WFKeys m) :
    (getNames m).Nodup :=
  (wfKeys_iff.mp hwf).imp ne_of_lt

theorem findEntry_foldl_register_none {H : Type} (getName : H → String)
    {name : String} (hs : List H) (m : List (String × H))
    (hm : findEntry m name = none) (hnames : ∀ h ∈ hs, getName h ≠ name) :
    findEntry (hs.foldl (fun m h => (registerHandle getName h m).1) m) name = none := by
  induction hs generalizing m with
  | nil => exact hm
  | cons h hs ih =>
      rw [List.foldl_cons]
      refine ih _ ?_ (fun h hh => hnames h (List.mem_cons_of_mem _ hh))
      rw [findEntry_registerHandle_ne getName h m
        (Ne.symm (hnames h (List.mem_cons_self _ _)))]
      exact hm

theorem findEntry_buildFrom_none {H : Type} (getName : H → String)
    {name : String} (hs : List H) (hnames : ∀ h ∈ hs, getName h ≠ name) :
    findEntry (buildFrom getName hs) name = none :=
  findEntry_foldl_register_none getName hs [] rfl hnames

/-!  The claims. -/

/-- Claim C1: for every handle `h` whose name is not already registered, performing
`registerHandle(h)` and then `getHandle(h.getName())` on the same registry
returns a handle value equal to `h` (the handle is copied in and out
unchanged); stated for either claim policy, assuming the collaborator's
`claim` does not itself fail. -/
theorem C1_register_then_getHandle_roundtrip {H ε : Type} (getName : H → String)
    (policy : ClaimPolicy) (claim : String → Except ε Unit) (typeId : String)
    (m : List (String × H)) (h : H)
    (hfresh : findEntry m (getName h) = none)
    (hclaim : claim (getName h) = Except.ok ()) :
    (getHandle policy claim typeId (registerHandle getName h m).1 (getName h)).result
      = Except.ok h := by
  have hfind := findEntry_registerHandle_self getName h m
  cases policy with
  | ClaimResources => simp [getHandle, hfind, policyClaim, hclaim]
  | DontClaimResources => simp [getHandle, hfind, policyClaim]

/-- Witness for C1 at a concrete input. -/
theorem C1_register_then_getHandle_roundtrip_witness :
    (getHandle ClaimPolicy.DontClaimResources
        (fun _ => (Except.ok () : Except Unit Unit)) "RM"
        (registerHandle (fun s : String => s) "wheel_left" []).1 "wheel_left").result
      = Except.ok "wheel_left" :=
  C1_register_then_getHandle_roundtrip (fun s => s) ClaimPolicy.DontClaimResources
    (fun _ => Except.ok ()) "RM" [] "wheel_left" rfl rfl

/-- Claim C2: under the `ClaimResources` policy, `getHandle` on a present name passes
exactly that name, exactly once, to the collaborator's `claim`, and makes no
such call when the name is absent (existence is confirmed first); under the
`DontClaimResources` policy the collaborator is never invoked, for any input. -/
theorem C2_claim_policy_trace {H ε : Type} (claim : String → Except ε Unit)
    (typeId : String) (m : List (String × H)) (name : String) :
    (∀ h : H, findEntry m name = some h →
        (getHandle ClaimPolicy.ClaimResources claim typeId m name).claimCalls = [name]) ∧
    (findEntry m name = none →
        (getHandle ClaimPolicy.ClaimResources claim typeId m name).claimCalls = []) ∧
    (getHandle ClaimPolicy.DontClaimResources claim typeId m name).claimCalls = [] := by
  refine ⟨fun h hfind => ?_, fun hfind => ?_, ?_⟩
  · cases hc : claim name <;> simp [getHandle, hfind, policyClaim, hc]
  · simp [getHandle, hfind]
  · cases hfind : findEntry m name with
    | none => simp [getHandle, hfind]
    | some h => cases hc : claim name <;> simp [getHandle, hfind, policyClaim, hc]

/-- Witness for C2 at concrete inputs. -/
theorem C2_claim_policy_trace_witness :
    (getHandle ClaimPolicy.ClaimResources
        (fun _ => (Except.ok () : Except Unit Unit)) "RM"
        [("a", (0 : Nat))] "a").claimCalls = ["a"] ∧
    (getHandle ClaimPolicy.ClaimResources
        (fun _ => (Except.ok () : Except Unit Unit)) "RM"
        [("a", (0 : Nat))] "b").claimCalls = [] ∧
    (getHandle ClaimPolicy.DontClaimResources
        (fun _ => (Except.ok () : Except Unit Unit)) "RM"
        [("a", (0 : Nat))] "a").claimCalls = [] :=
  ⟨(C2_claim_policy_trace (fun _ => Except.ok ()) "RM" [("a", 0)] "a").1 0 rfl,
   (C2_claim_policy_trace (fun _ => Except.ok ()) "RM" [("a", 0)] "b").2.1 rfl,
   (C2_claim_policy_trace (fun _ => Except.ok ()) "RM" [("a", 0)] "a").2.2⟩

/-- Claim C3: `getHandle(name)` on a registry in which `name` has never been
registered (the registry was populated only by registrations of other names)
throws the `HardwareInterfaceException` carrying exactly the requested name
and the registry's type identity; no handle is returned, no claim call is
made, and the state is untouched. -/
theorem C3_getHandle_never_registered {H ε : Type} (getName : H → String)
    (policy : ClaimPolicy) (claim : String → Except ε Unit) (typeId : String)
    (hs : List H) (name : String) (hnames : ∀ h ∈ hs, getName h ≠ name) :
    getHandle policy claim typeId (buildFrom getName hs) name =
      ⟨buildFrom getName hs, [],
        Except.error (HWError.resourceNotFound name typeId)⟩ := by
  have hnone := findEntry_buildFrom_none getName hs hnames
  simp [getHandle, hnone]

/-- Witness for C3 at a concrete input. -/
theorem C3_getHandle_never_registered_witness :
    getHandle ClaimPolicy.DontClaimResources
        (fun _ => (Except.ok () : Except Unit Unit)) "JointStateInterface"
        (buildFrom (fun s : String => s) ["wheel_left"]) "wheel_right" =
      ⟨buildFrom (fun s : String => s) ["wheel_left"], [],
        Except.error (HWError.resourceNotFound "wheel_right" "JointStateInterface")⟩ :=
  C3_getHandle_never_registered (fun s => s) ClaimPolicy.DontClaimResources
    (fun _ => Except.ok ()) "JointStateInterface" ["wheel_left"] "wheel_right"
    (by decide)

/-- Claim C4: registering `h1` and then `h2` with the same name leaves exactly one
entry for that name (its stored value is `h2`), `getNames()` has the same
length as after the first registration alone, and the second registration
still succeeds, reporting only the replacement warning. -/
theorem C4_duplicate_registration_overwrites {H : Type} (getName : H → String)
    (m : List (String × H)) (h1 h2 : H) (hwf : WFKeys m)
    (hname : getName h1 = getName h2) :
    findEntry (registerHandle getName h2 (registerHandle getName h1 m).1).1
        (getName h2) = some h2 ∧
    List.count (getName h2)
        (getNames (registerHandle getName h2 (registerHandle getName h1 m).1).1) = 1 ∧
    (getNames (registerHandle getName h2 (registerHandle getName h1 m).1).1).length
        = (getNames (registerHandle getName h1 m).1).length ∧
    (registerHandle getName h2 (registerHandle getName h1 m).1).2 = true := by
  set m1 := (registerHandle getName h1 m).1 with hm1def
  have hfind1 : findEntry m1 (getName h2) = some h1 := by
    rw [← hname, hm1def]
    exact findEntry_registerHandle_self getName h1 m
  have hwf1 : WFKeys m1 := wfKeys_registerHandle getName h1 hwf
  have hreg2 : registerHandle getName h2 m1 = (mapAssign (getName h2) h2 m1, true) := by
    rw [registerHandle, hfind1]
  refine ⟨?_, ?_, ?_, ?_⟩
  · rw [hreg2]
    have := @findEntry_mapAssign_self H m1 (getName h2) h2
    rw [hfind1] at this
    exact this
  · rw [hreg2]
    show List.count (getName h2) (getNames (mapAssign (getName h2) h2 m1)) = 1
    rw [getNames_mapAssign]
    have hmem : getName h2 ∈ getNames m1 :=
      mem_getNames_iff_isSome.mpr (by rw [hfind1]; rfl)
    exact List.count_eq_one_of_mem (nodup_getNames hwf1) hmem
  · rw [hreg2]
    show (getNames (mapAssign (getName h2) h2 m1)).length = (getNames m1).length
    rw [getNames_mapAssign]
  · rw [hreg2]

/-- Witness for C4 at a concrete input. -/
theorem C4_duplicate_registration_overwrites_witness :
    findEntry (registerHandle Prod.fst ("a", (2 : Nat))
        (registerHandle Prod.fst ("a", (1 : Nat)) []).1).1 "a" = some ("a", 2) ∧
    List.count "a" (getNames (registerHandle Prod.fst ("a", (2 : Nat))
        (registerHandle Prod.fst ("a", (1 : Nat)) []).1).1) = 1 ∧
    (getNames (registerHandle Prod.fst ("a", (2 : Nat))
        (registerHandle Prod.fst ("a", (1 : Nat)) []).1).1).length
      = (getNames (registerHandle Prod.fst ("a", (1 : Nat)) []).1).length ∧
    (registerHandle Prod.fst ("a", (2 : Nat))
        (registerHandle Prod.fst ("a", (1 : Nat)) []).1).2 = true :=
  C4_duplicate_registration_overwrites Prod.fst [] ("a", 1) ("a", 2)
    List.Pairwise.nil rfl

/-- Claim C5: on every reachable registry state, `getNames()` lists each registered
name exactly once (no duplicates, no omissions: membership coincides with
`find` succeeding), and its length equals the number of distinct registered
names; being a pure function of the state, it has no side effect on the
registry. -/
theorem C5_getNames_distinct_complete {H : Type} (getName : H → String)
    (m : List (String × H)) (hr : Reachable getName m) :
    (getNames m).Nodup ∧
    (∀ k : String, k ∈ getNames m ↔ (findEntry m k).isSome) ∧
    (getNames m).length = m.length ∧
    (getNames m).dedup.length = (getNames m).length := by
  have hnd : (getNames m).Nodup := nodup_getNames (reachable_wfKeys hr)
  refine ⟨hnd, fun k => mem_getNames_iff_isSome, by simp [getNames], by
    rw [List.Nodup.dedup hnd]⟩

/-- Witness for C5 at a concrete reachable state. -/
theorem C5_getNames_distinct_complete_witness :
    (getNames (registerHandle (fun s : String => s) "a" []).1).Nodup ∧
    (∀ k : String, k ∈ getNames (registerHandle (fun s : String => s) "a" []).1
        ↔ (findEntry (registerHandle (fun s : String => s) "a" []).1 k).isSome) ∧
    (getNames (registerHandle (fun s : String => s) "a" []).1).length
        = (registerHandle (fun s : String => s) "a" []).1.length ∧
    (getNames (registerHandle (fun s : String => s) "a" []).1).dedup.length
        = (getNames (registerHandle (fun s : String => s) "a" []).1).length :=
  C5_getNames_distinct_complete (fun s => s) _
    (Reachable.register [] "a" Reachable.empty)

/-- Claim C6: on every reachable registry state the map stores at most one handle
per name, and no operation removes an entry: `registerHandle` preserves the
presence of every previously registered name, and `getHandle` leaves the
state unchanged (`getNames` does not touch the state at all, being a pure
function of it). -/
theorem C6_registry_invariants {H ε : Type} (getName : H → String)
    (m : List (String × H)) (hr : Reachable getName m) :
    (∀ name : String, List.count name (getNames m) ≤ 1) ∧
    (∀ (h : H) (name : String), (findEntry m name).isSome →
        (findEntry (registerHandle getName h m).1 name).isSome) ∧
    (∀ (policy : ClaimPolicy) (claim : String → Except ε Unit) (typeId name : String),
        (getHandle policy claim typeId m name).state = m) := by
  refine ⟨fun name =>
      List.nodup_iff_count_le_one.mp (nodup_getNames (reachable_wfKeys hr)) name,
    ?_, ?_⟩
  · intro h name hsome
    by_cases hne : name = getName h
    · subst hne
      rw [findEntry_registerHandle_self]
      rfl
    · rw [findEntry_registerHandle_ne getName h m hne]
      exact hsome
  · intro policy claim typeId name
    unfold getHandle
    split
    · rfl
    · split <;> rfl

/-- Witness for C6 at a concrete reachable state. -/
theorem C6_registry_invariants_witness :
    List.count "a" (getNames (registerHandle (fun s : String => s) "a" []).1) ≤ 1 ∧
    (getHandle ClaimPolicy.ClaimResources
        (fun _ => (Except.ok () : Except Unit Unit)) "RM"
        (registerHandle (fun s : String => s) "a" []).1 "a").state
      = (registerHandle (fun s : String => s) "a" []).1 :=
  ⟨(@C6_registry_invariants String Unit (fun s => s) _
      (Reachable.register [] "a" Reachable.empty)).1 "a",
   (C6_registry_invariants (fun s => s) _
      (Reachable.register [] "a" Reachable.empty)).2.2
      ClaimPolicy.ClaimResources (fun _ => Except.ok ()) "RM" "a"⟩

/-- Claim C7: when the collaborator's `claim` raises an error during a
`ClaimResources`-policy lookup of a present name, that very error reaches the
caller of `getHandle` unchanged (it is the payload of the escaping
exception); the single recorded `claim` call shows there is no retry, and the
registry neither catches nor transforms the error. -/
theorem C7_collaborator_error_propagates {H ε : Type}
    (claim : String → Except ε Unit) (typeId : String) (m : List (String × H))
    (name : String) (h : H) (e : ε)
    (hfind : findEntry m name = some h) (herr : claim name = Except.error e) :
    (getHandle ClaimPolicy.ClaimResources claim typeId m name).result
        = Except.error (HWError.collaborator e) ∧
    (getHandle ClaimPolicy.ClaimResources claim typeId m name).claimCalls = [name] := by
  constructor <;> simp [getHandle, hfind, policyClaim, herr]

/-- Witness for C7 at a concrete input. -/
theorem C7_collaborator_error_propagates_witness :
    (getHandle ClaimPolicy.ClaimResources
        (fun _ => (Except.error "already claimed" : Except String Unit)) "RM"
        [("a", (0 : Nat))] "a").result
      = Except.error (HWError.collaborator "already claimed") ∧
    (getHandle ClaimPolicy.ClaimResources
        (fun _ => (Except.error "already claimed" : Except String Unit)) "RM"
        [("a", (0 : Nat))] "a").claimCalls = ["a"] :=
  C7_collaborator_error_propagates (fun _ => Except.error "already claimed")
    "RM" [("a", 0)] "a" 0 "already claimed" rfl rfl

/-- Claim C8: `registerHandle` has no failure outcome: for every handle, the empty
name included, the handle ends up stored under its name; a fresh name is
inserted without warning, an existing one is overwritten with the warning. -/
theorem C8_registerHandle_total {H : Type} (getName : H → String) (h : H)
    (m : List (String × H)) :
    findEntry (registerHandle getName h m).1 (getName h) = some h ∧
    (findEntry m (getName h) = none → (registerHandle getName h m).2 = false) ∧
    (∀ v : H, findEntry m (getName h) = some v → (registerHandle getName h m).2 = true) := by
  refine ⟨findEntry_registerHandle_self getName h m, ?_, ?_⟩
  · intro hnone
    rw [registerHandle, hnone]
  · intro v hsome
    rw [registerHandle, hsome]

/-- Witness for C8 at a concrete input with an empty resource name. -/
theorem C8_registerHandle_total_witness :
    findEntry (registerHandle (fun s : String => s) "" []).1 "" = some "" ∧
    (findEntry ([] : List (String × String)) "" = none →
        (registerHandle (fun s : String => s) "" []).2 = false) ∧
    (∀ v : String, findEntry ([] : List (String × String)) "" = some v →
        (registerHandle (fun s : String => s) "" []).2 = true) :=
  C8_registerHandle_total (fun s => s) "" []

/-- Claim C9: on every reachable registry state, `getNames` enumerates the names in
strictly increasing lexicographic order (the `std::map` key order), so the
enumeration is deterministic and reproducible rather than arbitrary. -/
theorem C9_getNames_sorted {H : Type} (getName : H → String)
    (m : List (String × H)) (hr : Reachable getName m) :
    (getNames m).Pairwise (· < ·) :=
  wfKeys_iff.mp (reachable_wfKeys hr)

/-- Witness for C9: registering out of lexicographic order still enumerates
in sorted order. -/
theorem C9_getNames_sorted_witness :
    (getNames (registerHandle (fun s : String => s) "a"
        (registerHandle (fun s : String => s) "b" []).1).1).Pairwise (· < ·) :=
  C9_getNames_sorted (fun s => s) _
    (Reachable.register _ "a" (Reachable.register [] "b" Reachable.empty))

/-- Claim C10: `getHandle` is read-only on the registry state, whether it succeeds
or fails; when the name is absent it throws without calling the
collaborator's `claim` and without touching any stored entry. -/
theorem C10_getHandle_readonly {H ε : Type} (policy : ClaimPolicy)
    (claim : String → Except ε Unit) (typeId : String) (m : List (String × H))
    (name : String) :
    (getHandle policy claim typeId m name).state = m ∧
    (findEntry m name = none →
      (getHandle policy claim typeId m name).claimCalls = [] ∧
      (getHandle policy claim typeId m name).result
          = Except.error (HWError.resourceNotFound name typeId)) := by
  constructor
  · unfold getHandle
    split
    · rfl
    · split <;> rfl
  · intro hnone
    constructor <;> simp [getHandle, hnone]

/-- Witness for C10 at a concrete input with an absent name. -/
theorem C10_getHandle_readonly_witness :
    (getHandle ClaimPolicy.ClaimResources
        (fun _ => (Except.ok () : Except Unit Unit)) "RM"
        [("a", (0 : Nat))] "b").state = [("a", (0 : Nat))] ∧
    (findEntry [("a", (0 : Nat))] "b" = none →
      (getHandle ClaimPolicy.ClaimResources
          (fun _ => (Except.ok () : Except Unit Unit)) "RM"
          [("a", (0 : Nat))] "b").claimCalls = [] ∧
      (getHandle ClaimPolicy.ClaimResources
          (fun _ => (Except.ok () : Except Unit Unit)) "RM"
          [("a", (0 : Nat))] "b").result
        = Except.error (HWError.resourceNotFound "b" "RM")) :=
  C10_getHandle_readonly ClaimPolicy.ClaimResources
    (fun _ => Except.ok ()) "RM" [("a", 0)] "b"

end hardware_interface
